import Mathlib

/-!
Verification development for the AutoPaper issue-document model.

Strings are modelled as lists of characters (`S := List Char`), and the
Python string primitives used by the source (`split`, `strip`, `find`,
slicing, `replace`, `lower`, containment) are given executable
definitions mirroring CPython semantics on the fragments the source
exercises.  Fallible operations (list indexing) return `Option`, so a
parser returns `Option` of its result and `none` models a raised
exception.
-/

set_option maxRecDepth 100000

namespace AutoPaper

abbrev S := List Char

/-- Python whitespace test used by `str.strip()` (ASCII fragment). -/
def pySpace (c : Char) : Bool :=
  c = ' ' || c = '\t' || c = '\n' || c = '\r' || c = '\x0B' || c = '\x0C'

/-- Python `s.strip()`. -/
def pyStrip (s : S) : S :=
  ((s.dropWhile pySpace).reverse.dropWhile pySpace).reverse

/-- Python `s.strip(chars)`: strip any of `cs` from both ends. -/
def pyStripChars (cs : S) (s : S) : S :=
  ((s.dropWhile cs.contains).reverse.dropWhile cs.contains).reverse

/-- Python `s.split(c)` (single-character separator, keeps empty pieces). -/
def splitOn (c : Char) : S → List S
  | [] => [[]]
  | a :: t =>
    if a = c then [] :: splitOn c t
    else
      match splitOn c t with
      | [] => [[a]]
      | h :: r => (a :: h) :: r

/-- Python `s.split(c, 1)` (maxsplit 1): one or two pieces. -/
def splitOnce (c : Char) : S → List S
  | [] => [[]]
  | a :: t =>
    if a = c then [[], t]
    else
      match splitOnce c t with
      | [] => [[a]]
      | h :: r => (a :: h) :: r

/-- Python list indexing `xs[i]`; `none` models an `IndexError`. -/
def pyIndex (xs : List α) (i : Nat) : Option α := xs.get? i

/-- Index of the first occurrence of `sub` in `s`, if any. -/
def findSub? (sub : S) : S → Option Nat
  | [] => if sub.isEmpty then some 0 else none
  | c :: t =>
    if sub.isPrefixOf (c :: t) then some 0
    else (findSub? sub t).map (· + 1)

/-- Python `s.find(sub, start)` with a non-negative start: -1 when absent. -/
def pyFindNat (sub s : S) (start : Nat) : Int :=
  match findSub? sub (s.drop start) with
  | some k => ((start + k : Nat) : Int)
  | none => -1

/-- Python `s.find(sub)`. -/
def pyFind (sub s : S) : Int := pyFindNat sub s 0

/-- Python substring containment `sub in s`. -/
def pyContains (sub s : S) : Bool := (findSub? sub s).isSome

/-- Python slice `s[a:b]` (step 1, negative indices wrap, out of range clamps). -/
def pySlice (s : S) (a b : Int) : S :=
  let n : Int := (s.length : Int)
  let a' : Int := if a < 0 then max (n + a) 0 else min a n
  let b' : Int := if b < 0 then max (n + b) 0 else min b n
  (s.take b'.toNat).drop a'.toNat

/-- Worker for `pyReplace`, with fuel bounding the scan length. -/
def pyReplaceGo (old new : S) : Nat → S → S
  | 0, s => s
  | fuel + 1, s =>
    match s with
    | [] => []
    | c :: t =>
      if old.isPrefixOf (c :: t) && !old.isEmpty then
        new ++ pyReplaceGo old new fuel ((c :: t).drop old.length)
      else c :: pyReplaceGo old new fuel t

/-- Python `s.replace(old, new)` (all occurrences, left to right). -/
def pyReplace (old new s : S) : S := pyReplaceGo old new s.length s

/-- Python `s.lower()` (ASCII fragment; CJK characters are unaffected). -/
def pyLower (s : S) : S := s.map Char.toLower

/-- Python `"\n".join(xs)`. -/
def joinNl (xs : List S) : S := List.intercalate ['\n'] xs

/-- Python `" ".join(xs)`. -/
def joinSp (xs : List S) : S := List.intercalate [' '] xs

/-! ### Data model: blocks and briefs, one record type per implementation -/

/-- Article block built by the export command's `_parse_article_blocks`. -/
structure ExportBlock where
  title : S
  slug : S
  content : S
  tags : List S
  url : S
  cover_image : Option S
  deriving DecidableEq

/-- Article block built by `PDFPublisher._parse_article_blocks`. -/
structure PdfBlock where
  title : S
  slug : S
  content : S
  tags : List S
  deriving DecidableEq

/-- Article block built by `EmailPublisher._parse_article_blocks`. -/
structure EmailBlock where
  title : S
  slug : S
  content : S
  tags : List S
  url : S
  deriving DecidableEq

/-- News brief produced by `_parse_news_briefs`. -/
structure Brief where
  title : S
  summary : S
  url : S
  deriving DecidableEq

/-! ### Export command: `_parse_article_blocks` (export.py lines 394-478) -/

/-- Parser state: finished blocks, the open block, its body accumulator. -/
structure ExpSt where
  blocks : List ExportBlock
  cur : Option ExportBlock
  curContent : List S
  deriving DecidableEq

/-- Guard of the tag-annotation branch (both locale labels). -/
def tagGuard (line : S) : Bool :=
  ("**标签**:".data.isPrefixOf line) || ("**Tags**:".data.isPrefixOf line)

/-- Guard of the original-link branch (both locale labels). -/
def urlGuard (line : S) : Bool :=
  ("**原文链接**:".data.isPrefixOf line) || ("**Original URL**:".data.isPrefixOf line)

/-- Fresh block from a sub-heading line (`"### <title>"`). -/
def newExportBlock (line : S) : ExportBlock :=
  { title := pyStrip (line.drop 4), slug := [], content := [], tags := []
    url := [], cover_image := none }

/-- Close the open block: assign its accumulated body and append it. -/
def closeExportCur (st : ExpSt) : List ExportBlock :=
  match st.cur with
  | some b => st.blocks ++ [{ b with content := pyStrip (joinNl st.curContent) }]
  | none => st.blocks

/-- Slug extracted by the double-bracket branch (`line[start:end]` with
Python's find returning -1 when `"]]"` precedes `"[["`). -/
def bracketSlug (line : S) : S :=
  pySlice line (pyFind "[[".data line + 2)
    (pyFindNat "]]".data line (pyFind "[[".data line + 2).toNat)

/-- One loop iteration of the export command's `_parse_article_blocks`. -/
def expStep (st : ExpSt) (line : S) : Option ExpSt :=
  if "### ".data.isPrefixOf line then
    some ⟨closeExportCur st, some (newExportBlock line), []⟩
  else if tagGuard line then
    match pyIndex (splitOnce ':' line) 1 with
    | none => none
    | some rest =>
      let tags := (splitOn ',' (pyStrip rest)).map pyStrip
      some { st with cur := st.cur.map (fun b => { b with tags := tags }) }
  else if urlGuard line then
    match pyIndex (splitOnce ':' line) 1 with
    | none => none
    | some rest =>
      let url_line := pyStrip rest
      if pyContains "](".data url_line then
        let url_start := pyFind "](".data url_line + 2
        let url_end := pyFindNat ")".data url_line url_start.toNat
        if url_start < url_end then
          some { st with cur := (st.cur.map (fun b => { b with url := pySlice url_line url_start url_end })) }
        else some st
      else some st
  else if "<!-- SLUG:".data.isPrefixOf line then
    let slug := pyStrip (pyReplace "-->".data [] (pyReplace "<!-- SLUG:".data [] line))
    some { st with cur := st.cur.map (fun b => { b with slug := slug }) }
  else if "![".data.isPrefixOf line then
    if pyContains "](".data line then
      let img_start := pyFind "](".data line + 2
      let img_end := pyFindNat ")".data line img_start.toNat
      if img_start < img_end then
        some { st with cur := (st.cur.map (fun b => { b with cover_image := some (pySlice line img_start img_end) })) }
      else some st
    else some st
  else if pyContains "(See:".data line || pyContains "[[".data line then
    if pyContains "[[".data line && pyContains "]]".data line then
      some { st with cur := st.cur.map (fun b => { b with slug := bracketSlug line }) }
    else some st
  else
    some { st with curContent := st.curContent ++ [line] }

/-- Export command article-block parser, on an explicit line list. -/
def parse_article_blocks_lines (ls : List S) : Option (List ExportBlock) :=
  (ls.foldlM expStep ⟨[], none, []⟩).map closeExportCur

/-- Function `_parse_article_blocks` of src/autopaper/commands/export.py. -/
def parse_article_blocks (content : S) : Option (List ExportBlock) :=
  parse_article_blocks_lines (splitOn '\n' content)

/-! ### Export command: `_parse_news_briefs` (export.py lines 481-504) -/

/-- Loop body of `_parse_news_briefs`: the brief a line contributes, if any. -/
def briefOfLine (line : S) : Option Brief :=
  if "- ".data.isPrefixOf (pyStrip line) then
    let l := (pyStrip line).drop 2
    if pyContains "**".data l then
      let k := pyFindNat "**".data l 2
      if 0 < k then
        some ⟨pySlice l 2 k,
          pyStrip (pyStripChars ": ".data (pySlice l (k + 2) (l.length : Int))), []⟩
      else none
    else none
  else none

/-- Function `_parse_news_briefs` of src/autopaper/commands/export.py. -/
def parse_news_briefs (content : S) : List Brief :=
  (splitOn '\n' content).foldl
    (fun briefs line =>
      match briefOfLine line with
      | some b => briefs ++ [b]
      | none => briefs) []

/-! ### Export command: `_parse_issue_markdown` (export.py lines 332-391) -/

/-- Parsed issue document (the `sections` dictionary). Unknown heading
names land in `extra`, an insertion-ordered key-value list. -/
structure Doc where
  introduction : S
  trends : S
  article_blocks : List ExportBlock
  news_briefs : List Brief
  extra : List (S × S)
  deriving DecidableEq

/-- The initial `sections` dictionary. -/
def emptyDoc : Doc := ⟨[], [], [], [], []⟩

/-- Dictionary assignment for a non-canonical key (overwrite or append). -/
def setExtra (m : List (S × S)) (k v : S) : List (S × S) :=
  if m.any (fun p => p.1 == k) then
    m.map (fun p => if p.1 = k then (k, v) else p)
  else m ++ [(k, v)]

/-- Flush rule of `_parse_issue_markdown`: dispatch on the section key. -/
def flushSection (doc : Doc) (key : S) (content : List S) : Option Doc :=
  if key = "article_blocks".data then
    (parse_article_blocks (joinNl content)).map
      (fun bs => { doc with article_blocks := bs })
  else if key = "news_briefs".data then
    some { doc with news_briefs := parse_news_briefs (joinNl content) }
  else
    let v := pyStrip (joinNl content)
    some (if key = "introduction".data then { doc with introduction := v }
      else if key = "trends".data then { doc with trends := v }
      else { doc with extra := setExtra doc.extra key v })

/-- The export command's section-name table (`section_map.get`, Chinese
names only; any other name is lower-cased with spaces replaced). -/
def exp_section_key (name : S) : S :=
  if name = "主编导语".data then "introduction".data
  else if name = "核心趋势".data then "trends".data
  else if name = "深度文章".data then "article_blocks".data
  else if name = "快讯速览".data then "news_briefs".data
  else pyReplace " ".data "_".data (pyLower name)

/-- Section-splitter state: document so far, current key, accumulator. -/
structure IssSt where
  doc : Doc
  cur : Option S
  content : List S
  deriving DecidableEq

/-- Guard `if current_section:` — flush unless the key is `None` or empty. -/
def curFlush (st : IssSt) : Option Doc :=
  match st.cur with
  | some k => if k = [] then some st.doc else flushSection st.doc k st.content
  | none => some st.doc

/-- One loop iteration of `_parse_issue_markdown`. -/
def issStep (st : IssSt) (line : S) : Option IssSt :=
  if "## ".data.isPrefixOf line then
    (curFlush st).map (fun d => ⟨d, some (exp_section_key (pyStrip (line.drop 3))), []⟩)
  else
    some { st with content := st.content ++ [line] }

/-- Function `_parse_issue_markdown` of src/autopaper/commands/export.py. -/
def parse_issue_markdown (markdown : S) : Option Doc :=
  ((splitOn '\n' markdown).foldlM issStep ⟨emptyDoc, none, []⟩).bind curFlush

/-! ### PDF publisher: `_parse_article_blocks` (pdf.py lines 176-225) -/

/-- PDF parser state. -/
structure PdfSt where
  blocks : List PdfBlock
  cur : Option PdfBlock
  curContent : List S
  deriving DecidableEq

/-- Fresh PDF block from a sub-heading line. -/
def newPdfBlock (line : S) : PdfBlock :=
  { title := pyStrip (line.drop 4), slug := [], content := [], tags := [] }

/-- Close the open PDF block. -/
def closePdfCur (st : PdfSt) : List PdfBlock :=
  match st.cur with
  | some b => st.blocks ++ [{ b with content := pyStrip (joinNl st.curContent) }]
  | none => st.blocks

/-- One loop iteration of `PDFPublisher._parse_article_blocks`. -/
def pdfStep (st : PdfSt) (line : S) : Option PdfSt :=
  if "### ".data.isPrefixOf line then
    some ⟨closePdfCur st, some (newPdfBlock line), []⟩
  else if tagGuard line then
    match pyIndex (splitOnce ':' line) 1 with
    | none => none
    | some rest =>
      let tags := (splitOn ',' (pyStrip rest)).map pyStrip
      some { st with cur := st.cur.map (fun b => { b with tags := tags }) }
  else if pyContains "(See:".data line || pyContains "[[".data line then
    if pyContains "[[".data line && pyContains "]]".data line then
      some { st with cur := st.cur.map (fun b => { b with slug := bracketSlug line }) }
    else some st
  else
    some { st with curContent := st.curContent ++ [line] }

/-- PDF publisher article-block parser, on an explicit line list. -/
def pdf_parse_article_blocks_lines (ls : List S) : Option (List PdfBlock) :=
  (ls.foldlM pdfStep ⟨[], none, []⟩).map closePdfCur

/-- Method `PDFPublisher._parse_article_blocks` of src/autopaper/publishers/pdf.py. -/
def pdf_parse_article_blocks (content : S) : Option (List PdfBlock) :=
  pdf_parse_article_blocks_lines (splitOn '\n' content)

/-! ### Email publisher: `_parse_article_blocks` (email.py lines 461-522) -/

/-- Email parser state. -/
structure EmSt where
  blocks : List EmailBlock
  cur : Option EmailBlock
  curContent : List S
  deriving DecidableEq

/-- Fresh email block from a sub-heading line. -/
def newEmailBlock (line : S) : EmailBlock :=
  { title := pyStrip (line.drop 4), slug := [], content := [], tags := [], url := [] }

/-- Close the open email block. -/
def closeEmailCur (st : EmSt) : List EmailBlock :=
  match st.cur with
  | some b => st.blocks ++ [{ b with content := pyStrip (joinNl st.curContent) }]
  | none => st.blocks

/-- One loop iteration of `EmailPublisher._parse_article_blocks`. -/
def emStep (st : EmSt) (line : S) : Option EmSt :=
  if "### ".data.isPrefixOf line then
    some ⟨closeEmailCur st, some (newEmailBlock line), []⟩
  else if tagGuard line then
    match pyIndex (splitOnce ':' line) 1 with
    | none => none
    | some rest =>
      let tags := (splitOn ',' (pyStrip rest)).map pyStrip
      some { st with cur := st.cur.map (fun b => { b with tags := tags }) }
  else if urlGuard line then
    match pyIndex (splitOnce ':' line) 1 with
    | none => none
    | some rest =>
      let url_line := pyStrip rest
      if pyContains "](".data url_line then
        let url_start := pyFind "](".data url_line + 2
        let url_end := pyFindNat ")".data url_line url_start.toNat
        if url_start < url_end then
          some { st with cur := (st.cur.map (fun b => { b with url := pySlice url_line url_start url_end })) }
        else some st
      else some st
  else if "<!-- SLUG:".data.isPrefixOf line then
    let slug := pyStrip (pyReplace "-->".data [] (pyReplace "<!-- SLUG:".data [] line))
    some { st with cur := st.cur.map (fun b => { b with slug := slug }) }
  else
    some { st with curContent := st.curContent ++ [line] }

/-- Email publisher article-block parser, on an explicit line list. -/
def email_parse_article_blocks_lines (ls : List S) : Option (List EmailBlock) :=
  (ls.foldlM emStep ⟨[], none, []⟩).map closeEmailCur

/-- Method `EmailPublisher._parse_article_blocks` of src/autopaper/publishers/email.py. -/
def email_parse_article_blocks (content : S) : Option (List EmailBlock) :=
  email_parse_article_blocks_lines (splitOn '\n' content)

/-! ### Section-name resolution in the email and PDF publishers -/

/-- The email publisher's `section_map.get` (email.py lines 421-426 and
445): the same Chinese-only table as the export command. -/
def email_section_key (name : S) : S :=
  if name = "主编导语".data then "introduction".data
  else if name = "核心趋势".data then "trends".data
  else if name = "深度文章".data then "article_blocks".data
  else if name = "快讯速览".data then "news_briefs".data
  else pyReplace " ".data "_".data (pyLower name)

/-- Method `PDFPublisher._normalize_section_name` (pdf.py lines 154-174): the
lower-cased name is looked up in a table holding both locales. -/
def pdf_normalize_section_name (name : S) : S :=
  if pyLower name = "主编导语".data then "introduction".data
  else if pyLower name = "editor\x27s introduction".data then "introduction".data
  else if pyLower name = "核心趋势".data then "trends".data
  else if pyLower name = "core trends".data then "trends".data
  else if pyLower name = "深度文章".data then "article_blocks".data
  else if pyLower name = "in-depth articles".data then "article_blocks".data
  else if pyLower name = "快讯速览".data then "news_briefs".data
  else if pyLower name = "news briefs".data then "news_briefs".data
  else pyReplace " ".data "_".data (pyLower name)

/-! ### Claim C1: end-to-end example -/

/-- The exact input of the end-to-end example. -/
def c1Input : S :=
  ("## 核心趋势\nTrend text here.\n\n## 深度文章\n### My Title\n" ++
   "**标签**: ai, llm\n**原文链接**: [link](http://x.com)\n" ++
   "<!-- SLUG: my-title -->\nBody line 1\nBody line 2").data

/-- C1: parsing the ten-line example yields trends "Trend text here." and
exactly one article block with the stated title, tags, url, slug, and
two-line content. -/
theorem C1_end_to_end :
    (parse_issue_markdown c1Input).map (fun d => (d.trends, d.article_blocks)) =
      some ("Trend text here.".data,
        [{ title := "My Title".data, slug := "my-title".data,
           content := "Body line 1\nBody line 2".data,
           tags := ["ai".data, "llm".data], url := "http://x.com".data,
           cover_image := none }]) := by
  decide

/-! ### Counterexamples: where the claims diverge from the code -/

/-- C2 counterexample: the three article-block parsers do not compute the
same function.  On `"### T\n<!-- SLUG: s -->"` the export parser extracts
slug `"s"` while the PDF parser leaves the slug empty and keeps the
comment line in `content`; on `"### T\n[[x]]"` the export parser extracts
slug `"x"` while the email parser leaves the slug empty. -/
theorem C2_three_parsers_cex :
    (parse_article_blocks "### T\n<!-- SLUG: s -->".data).map
        (List.map (fun b => (b.slug, b.content))) = some [("s".data, [])] ∧
    (pdf_parse_article_blocks "### T\n<!-- SLUG: s -->".data).map
        (List.map (fun b => (b.slug, b.content))) = some [([], "<!-- SLUG: s -->".data)] ∧
    (parse_article_blocks "### T\n[[x]]".data).map (List.map ExportBlock.slug) =
        some ["x".data] ∧
    (email_parse_article_blocks "### T\n[[x]]".data).map
        (List.map (fun b => (b.slug, b.content))) = some [([], "[[x]]".data)] ∧
    "s".data ≠ ([] : S) ∧ "x".data ≠ ([] : S) := by
  decide

/-- C3 counterexample: in the export command's section splitter the
English heading name "Core Trends" is not in the table (the table holds
only the Chinese names), so it lands under the derived key
`core_trends` instead of the canonical key `trends`. -/
theorem C3_locale_table_cex :
    (parse_issue_markdown "## Core Trends\nX".data).map (fun d => (d.trends, d.extra)) =
      some (([] : S), [("core_trends".data, "X".data)]) ∧
    exp_section_key "Core Trends".data = "core_trends".data ∧
    "core_trends".data ≠ "trends".data := by
  decide

/-- C5 counterexample: the sub-heading line `"### "` (marker with blank
text) produces a block whose title is the empty string. -/
theorem C5_empty_title_cex :
    (parse_article_blocks "### ".data).map (List.map ExportBlock.title) =
      some [([] : S)] := by
  decide

/-- C6 counterexample: a double-bracket line after a hidden slug comment
overwrites the comment-supplied slug: the returned block carries `"b"`,
not the comment's `"a"`. -/
theorem C6_bracket_overwrites_cex :
    (parse_article_blocks "### T\n<!-- SLUG: a -->\n[[b]]".data).map
        (List.map ExportBlock.slug) = some ["b".data] ∧
    "b".data ≠ "a".data := by
  decide

/-- C7 counterexample: the bullet line `"- abc **x**"` does not have the
shape `- **Title**: summary`, yet it is not dropped: it yields a brief
with mangled title `"c "` and summary `"x**"`. -/
theorem C7_mangled_brief_cex :
    parse_news_briefs "- abc **x**".data = [⟨"c ".data, "x**".data, []⟩] ∧
    parse_news_briefs "- abc **x**".data ≠ [] := by
  decide

/-! ### Totality: the parsers can only raise at the `split(":", 1)[1]`
indexings, and the branch guards guarantee a colon is present. -/

theorem mem_of_pref {c : Char} {p l : S} (hp : p.isPrefixOf l = true) (hc : c ∈ p) :
    c ∈ l :=
  (List.isPrefixOf_iff_prefix.mp hp).subset hc

theorem splitOnce_pair {c : Char} {s : S} (h : c ∈ s) :
    ∃ x y, splitOnce c s = [x, y] := by
  induction s with
  | nil => cases h
  | cons a t ih =>
    by_cases hac : a = c
    · exact ⟨[], t, by simp [splitOnce, hac]⟩
    · rcases List.mem_cons.mp h with h1 | h2
      · exact absurd h1.symm hac
      · obtain ⟨x, y, hxy⟩ := ih h2
        exact ⟨a :: x, y, by simp [splitOnce, hac, hxy]⟩

theorem pyIndex_splitOnce_isSome {c : Char} {s : S} (h : c ∈ s) :
    (pyIndex (splitOnce c s) 1).isSome = true := by
  obtain ⟨x, y, hxy⟩ := splitOnce_pair h
  rw [pyIndex, hxy]
  rfl

theorem colon_mem_of_tagGuard {l : S} (h : tagGuard l = true) : ':' ∈ l := by
  rcases Bool.or_eq_true_iff.mp h with h1 | h1
  · exact mem_of_pref h1 (by decide)
  · exact mem_of_pref h1 (by decide)

theorem colon_mem_of_urlGuard {l : S} (h : urlGuard l = true) : ':' ∈ l := by
  rcases Bool.or_eq_true_iff.mp h with h1 | h1
  · exact mem_of_pref h1 (by decide)
  · exact mem_of_pref h1 (by decide)

theorem expStep_isSome (st : ExpSt) (line : S) : (expStep st line).isSome = true := by
  unfold expStep
  by_cases h1 : "### ".data.isPrefixOf line = true
  · simp [h1]
  · by_cases h2 : tagGuard line = true
    · obtain ⟨v, hv⟩ := Option.isSome_iff_exists.mp
        (pyIndex_splitOnce_isSome (colon_mem_of_tagGuard h2))
      simp [h1, h2, hv]
    · by_cases h3 : urlGuard line = true
      · obtain ⟨v, hv⟩ := Option.isSome_iff_exists.mp
          (pyIndex_splitOnce_isSome (colon_mem_of_urlGuard h3))
        simp only [h1, h2, h3, Bool.false_eq_true, if_false, if_true, hv]
        repeat' split
        all_goals simp
      · simp only [h1, h2, h3, Bool.false_eq_true, if_false]
        repeat' split
        all_goals simp

theorem pdfStep_isSome (st : PdfSt) (line : S) : (pdfStep st line).isSome = true := by
  unfold pdfStep
  by_cases h1 : "### ".data.isPrefixOf line = true
  · simp [h1]
  · by_cases h2 : tagGuard line = true
    · obtain ⟨v, hv⟩ := Option.isSome_iff_exists.mp
        (pyIndex_splitOnce_isSome (colon_mem_of_tagGuard h2))
      simp [h1, h2, hv]
    · simp only [h1, h2, Bool.false_eq_true, if_false]
      repeat' split
      all_goals simp

theorem emStep_isSome (st : EmSt) (line : S) : (emStep st line).isSome = true := by
  unfold emStep
  by_cases h1 : "### ".data.isPrefixOf line = true
  · simp [h1]
  · by_cases h2 : tagGuard line = true
    · obtain ⟨v, hv⟩ := Option.isSome_iff_exists.mp
        (pyIndex_splitOnce_isSome (colon_mem_of_tagGuard h2))
      simp [h1, h2, hv]
    · by_cases h3 : urlGuard line = true
      · obtain ⟨v, hv⟩ := Option.isSome_iff_exists.mp
          (pyIndex_splitOnce_isSome (colon_mem_of_urlGuard h3))
        simp only [h1, h2, h3, Bool.false_eq_true, if_false, if_true, hv]
        repeat' split
        all_goals simp
      · simp only [h1, h2, h3, Bool.false_eq_true, if_false]
        repeat' split
        all_goals simp

theorem foldlM_expStep_isSome (ls : List S) (st : ExpSt) :
    (ls.foldlM expStep st).isSome = true := by
  induction ls generalizing st with
  | nil => rfl
  | cons l t ih =>
    rw [List.foldlM_cons]
    obtain ⟨st', hst'⟩ := Option.isSome_iff_exists.mp (expStep_isSome st l)
    rw [hst']
    simpa using ih st'

theorem foldlM_pdfStep_isSome (ls : List S) (st : PdfSt) :
    (ls.foldlM pdfStep st).isSome = true := by
  induction ls generalizing st with
  | nil => rfl
  | cons l t ih =>
    rw [List.foldlM_cons]
    obtain ⟨st', hst'⟩ := Option.isSome_iff_exists.mp (pdfStep_isSome st l)
    rw [hst']
    simpa using ih st'

theorem foldlM_emStep_isSome (ls : List S) (st : EmSt) :
    (ls.foldlM emStep st).isSome = true := by
  induction ls generalizing st with
  | nil => rfl
  | cons l t ih =>
    rw [List.foldlM_cons]
    obtain ⟨st', hst'⟩ := Option.isSome_iff_exists.mp (emStep_isSome st l)
    rw [hst']
    simpa using ih st'

theorem parse_article_blocks_isSome (c : S) :
    (parse_article_blocks c).isSome = true := by
  unfold parse_article_blocks parse_article_blocks_lines
  obtain ⟨st, hst⟩ := Option.isSome_iff_exists.mp
    (foldlM_expStep_isSome (splitOn '\n' c) ⟨[], none, []⟩)
  rw [hst]
  rfl

theorem flushSection_isSome (doc : Doc) (key : S) (content : List S) :
    (flushSection doc key content).isSome = true := by
  unfold flushSection
  split
  · obtain ⟨bs, hbs⟩ := Option.isSome_iff_exists.mp
      (parse_article_blocks_isSome (joinNl content))
    rw [hbs]
    rfl
  · split <;> simp

theorem curFlush_isSome (st : IssSt) : (curFlush st).isSome = true := by
  unfold curFlush
  match st with
  | ⟨doc, none, content⟩ => rfl
  | ⟨doc, some k, content⟩ =>
    simp only
    split
    · rfl
    · exact flushSection_isSome doc k content

theorem issStep_isSome (st : IssSt) (line : S) : (issStep st line).isSome = true := by
  unfold issStep
  split
  · obtain ⟨d, hd⟩ := Option.isSome_iff_exists.mp (curFlush_isSome st)
    rw [hd]
    rfl
  · rfl

theorem foldlM_issStep_isSome (ls : List S) (st : IssSt) :
    (ls.foldlM issStep st).isSome = true := by
  induction ls generalizing st with
  | nil => rfl
  | cons l t ih =>
    rw [List.foldlM_cons]
    obtain ⟨st', hst'⟩ := Option.isSome_iff_exists.mp (issStep_isSome st l)
    rw [hst']
    simpa using ih st'

/-- C4: for every input string the issue-markdown parser (section
splitting together with the article-block and news-brief parsers it
invokes) returns a document; `none`, which models a raised exception,
cannot occur. -/
theorem C4_parser_never_raises (s : S) : ∃ d, parse_issue_markdown s = some d := by
  unfold parse_issue_markdown
  obtain ⟨st, hst⟩ := Option.isSome_iff_exists.mp
    (foldlM_issStep_isSome (splitOn '\n' s) ⟨emptyDoc, none, []⟩)
  rw [hst]
  obtain ⟨d, hd⟩ := Option.isSome_iff_exists.mp (curFlush_isSome st)
  exact ⟨d, by rw [Option.some_bind, hd]⟩

/-! ### C2 machinery: the three parsers agree on titles and tags.
The (title, tags) projection of each parser's state evolves by one common
abstract step function, because the heading and tag branches are
verbatim-identical in the three sources and every other branch touches
only slug, url, cover image, or body content. -/

/-- The (title, tags) view of an export block. -/
def expTT (b : ExportBlock) : S × List S := (b.title, b.tags)

/-- The (title, tags) view of a PDF block. -/
def pdfTT (b : PdfBlock) : S × List S := (b.title, b.tags)

/-- The (title, tags) view of an email block. -/
def emTT (b : EmailBlock) : S × List S := (b.title, b.tags)

/-- Abstract parser state: projected finished blocks and open block. -/
abbrev ProjSt := List (S × List S) × Option (S × List S)

/-- Common evolution of the (title, tags) projection under one line. -/
def projStep (ps : ProjSt) (line : S) : ProjSt :=
  if "### ".data.isPrefixOf line then
    (ps.1 ++ (match ps.2 with | some p => [p] | none => []),
     some (pyStrip (line.drop 4), []))
  else if tagGuard line then
    match pyIndex (splitOnce ':' line) 1 with
    | some rest => (ps.1, ps.2.map (fun p => (p.1, (splitOn ',' (pyStrip rest)).map pyStrip)))
    | none => ps
  else ps

/-- Projected finish: close the open block. -/
def projFinish (ps : ProjSt) : List (S × List S) :=
  ps.1 ++ (match ps.2 with | some p => [p] | none => [])

theorem closeExportCur_tt (st : ExpSt) :
    (closeExportCur st).map expTT =
      projFinish (st.blocks.map expTT, st.cur.map expTT) := by
  unfold closeExportCur projFinish
  cases st.cur <;> simp [expTT]

theorem closePdfCur_tt (st : PdfSt) :
    (closePdfCur st).map pdfTT =
      projFinish (st.blocks.map pdfTT, st.cur.map pdfTT) := by
  unfold closePdfCur projFinish
  cases st.cur <;> simp [pdfTT]

theorem closeEmailCur_tt (st : EmSt) :
    (closeEmailCur st).map emTT =
      projFinish (st.blocks.map emTT, st.cur.map emTT) := by
  unfold closeEmailCur projFinish
  cases st.cur <;> simp [emTT]

theorem expStep_proj {st st' : ExpSt} {line : S} (h : expStep st line = some st') :
    (st'.blocks.map expTT, st'.cur.map expTT) =
      projStep (st.blocks.map expTT, st.cur.map expTT) line := by
  unfold expStep at h
  unfold projStep
  by_cases h1 : "### ".data.isPrefixOf line = true
  · simp only [h1, if_true] at h ⊢
    cases h
    simp [closeExportCur_tt, projFinish, newExportBlock, expTT]
  · simp only [h1, Bool.false_eq_true, if_false] at h ⊢
    by_cases h2 : tagGuard line = true
    · simp only [h2, if_true] at h ⊢
      obtain ⟨rest, hrest⟩ := Option.isSome_iff_exists.mp
        (pyIndex_splitOnce_isSome (colon_mem_of_tagGuard h2))
      rw [hrest] at h ⊢
      cases h
      cases st.cur <;> simp [expTT]
    · simp only [h2, Bool.false_eq_true, if_false] at h ⊢
      repeat' split at h
      all_goals cases h
      all_goals (cases st.cur <;> simp [expTT])

theorem pdfStep_proj {st st' : PdfSt} {line : S} (h : pdfStep st line = some st') :
    (st'.blocks.map pdfTT, st'.cur.map pdfTT) =
      projStep (st.blocks.map pdfTT, st.cur.map pdfTT) line := by
  unfold pdfStep at h
  unfold projStep
  by_cases h1 : "### ".data.isPrefixOf line = true
  · simp only [h1, if_true] at h ⊢
    cases h
    simp [closePdfCur_tt, projFinish, newPdfBlock, pdfTT]
  · simp only [h1, Bool.false_eq_true, if_false] at h ⊢
    by_cases h2 : tagGuard line = true
    · simp only [h2, if_true] at h ⊢
      obtain ⟨rest, hrest⟩ := Option.isSome_iff_exists.mp
        (pyIndex_splitOnce_isSome (colon_mem_of_tagGuard h2))
      rw [hrest] at h ⊢
      cases h
      cases st.cur <;> simp [pdfTT]
    · simp only [h2, Bool.false_eq_true, if_false] at h ⊢
      repeat' split at h
      all_goals cases h
      all_goals (cases st.cur <;> simp [pdfTT])

theorem emStep_proj {st st' : EmSt} {line : S} (h : emStep st line = some st') :
    (st'.blocks.map emTT, st'.cur.map emTT) =
      projStep (st.blocks.map emTT, st.cur.map emTT) line := by
  unfold emStep at h
  unfold projStep
  by_cases h1 : "### ".data.isPrefixOf line = true
  · simp only [h1, if_true] at h ⊢
    cases h
    simp [closeEmailCur_tt, projFinish, newEmailBlock, emTT]
  · simp only [h1, Bool.false_eq_true, if_false] at h ⊢
    by_cases h2 : tagGuard line = true
    · simp only [h2, if_true] at h ⊢
      obtain ⟨rest, hrest⟩ := Option.isSome_iff_exists.mp
        (pyIndex_splitOnce_isSome (colon_mem_of_tagGuard h2))
      rw [hrest] at h ⊢
      cases h
      cases st.cur <;> simp [emTT]
    · simp only [h2, Bool.false_eq_true, if_false] at h ⊢
      repeat' split at h
      all_goals cases h
      all_goals (cases st.cur <;> simp [emTT])

theorem foldl_proj_exp (ls : List S) :
    ∀ (st st' : ExpSt), ls.foldlM expStep st = some st' →
      (st'.blocks.map expTT, st'.cur.map expTT) =
        ls.foldl projStep (st.blocks.map expTT, st.cur.map expTT) := by
  induction ls with
  | nil =>
    intro st st' h
    simp only [List.foldlM_nil] at h
    cases h
    rfl
  | cons l t ih =>
    intro st st' h
    rw [List.foldlM_cons] at h
    obtain ⟨st1, hst1⟩ := Option.isSome_iff_exists.mp (expStep_isSome st l)
    rw [hst1] at h
    rw [List.foldl_cons, ← expStep_proj hst1]
    exact ih st1 st' h

theorem foldl_proj_pdf (ls : List S) :
    ∀ (st st' : PdfSt), ls.foldlM pdfStep st = some st' →
      (st'.blocks.map pdfTT, st'.cur.map pdfTT) =
        ls.foldl projStep (st.blocks.map pdfTT, st.cur.map pdfTT) := by
  induction ls with
  | nil =>
    intro st st' h
    simp only [List.foldlM_nil] at h
    cases h
    rfl
  | cons l t ih =>
    intro st st' h
    rw [List.foldlM_cons] at h
    obtain ⟨st1, hst1⟩ := Option.isSome_iff_exists.mp (pdfStep_isSome st l)
    rw [hst1] at h
    rw [List.foldl_cons, ← pdfStep_proj hst1]
    exact ih st1 st' h

theorem foldl_proj_em (ls : List S) :
    ∀ (st st' : EmSt), ls.foldlM emStep st = some st' →
      (st'.blocks.map emTT, st'.cur.map emTT) =
        ls.foldl projStep (st.blocks.map emTT, st.cur.map emTT) := by
  induction ls with
  | nil =>
    intro st st' h
    simp only [List.foldlM_nil] at h
    cases h
    rfl
  | cons l t ih =>
    intro st st' h
    rw [List.foldlM_cons] at h
    obtain ⟨st1, hst1⟩ := Option.isSome_iff_exists.mp (emStep_isSome st l)
    rw [hst1] at h
    rw [List.foldl_cons, ← emStep_proj hst1]
    exact ih st1 st' h

theorem parse_article_blocks_tt (c : S) :
    (parse_article_blocks c).map (List.map expTT) =
      some (projFinish ((splitOn '\n' c).foldl projStep ([], none))) := by
  unfold parse_article_blocks parse_article_blocks_lines
  obtain ⟨st, hst⟩ := Option.isSome_iff_exists.mp
    (foldlM_expStep_isSome (splitOn '\n' c) ⟨[], none, []⟩)
  rw [hst]
  have h := foldl_proj_exp (splitOn '\n' c) ⟨[], none, []⟩ st hst
  simp only [Option.map_some']
  rw [closeExportCur_tt, h]
  rfl

theorem pdf_parse_article_blocks_tt (c : S) :
    (pdf_parse_article_blocks c).map (List.map pdfTT) =
      some (projFinish ((splitOn '\n' c).foldl projStep ([], none))) := by
  unfold pdf_parse_article_blocks pdf_parse_article_blocks_lines
  obtain ⟨st, hst⟩ := Option.isSome_iff_exists.mp
    (foldlM_pdfStep_isSome (splitOn '\n' c) ⟨[], none, []⟩)
  rw [hst]
  have h := foldl_proj_pdf (splitOn '\n' c) ⟨[], none, []⟩ st hst
  simp only [Option.map_some']
  rw [closePdfCur_tt, h]
  rfl

theorem email_parse_article_blocks_tt (c : S) :
    (email_parse_article_blocks c).map (List.map emTT) =
      some (projFinish ((splitOn '\n' c).foldl projStep ([], none))) := by
  unfold email_parse_article_blocks email_parse_article_blocks_lines
  obtain ⟨st, hst⟩ := Option.isSome_iff_exists.mp
    (foldlM_emStep_isSome (splitOn '\n' c) ⟨[], none, []⟩)
  rw [hst]
  have h := foldl_proj_em (splitOn '\n' c) ⟨[], none, []⟩ st hst
  simp only [Option.map_some']
  rw [closeEmailCur_tt, h]
  rfl

/-- C2 amended: the three article-block parsers do not compute the same
function (see the counterexample), but they do agree, for every section
text, on the number of blocks, their order, their titles, and their
tags; they differ only in slug, url, cover-image and body-content
handling. -/
theorem C2_titles_and_tags_agree (c : S) :
    (parse_article_blocks c).map (List.map expTT) =
      (pdf_parse_article_blocks c).map (List.map pdfTT) ∧
    (parse_article_blocks c).map (List.map expTT) =
      (email_parse_article_blocks c).map (List.map emTT) := by
  rw [parse_article_blocks_tt, pdf_parse_article_blocks_tt, email_parse_article_blocks_tt]
  exact ⟨rfl, rfl⟩

/-! ### C5: titles come from sub-heading lines -/

theorem projStep_titles {ps : ProjSt} {line : S}
    (hline : "### ".data.isPrefixOf line = true → pyStrip (line.drop 4) ≠ ([] : S))
    (hps : ∀ p ∈ projFinish ps, p.1 ≠ ([] : S)) :
    ∀ p ∈ projFinish (projStep ps line), p.1 ≠ ([] : S) := by
  obtain ⟨l1, o2⟩ := ps
  unfold projStep
  by_cases h1 : "### ".data.isPrefixOf line = true
  · simp only [h1, if_true]
    intro p hp
    unfold projFinish at hp hps
    rcases List.mem_append.mp hp with h | h
    · exact hps p h
    · rw [List.mem_singleton.mp h]
      exact hline h1
  · simp only [h1, Bool.false_eq_true, if_false]
    by_cases h2 : tagGuard line = true
    · simp only [h2, if_true]
      cases hIdx : pyIndex (splitOnce ':' line) 1 with
      | none => exact hps
      | some rest =>
        intro p hp
        unfold projFinish at hp hps
        rcases List.mem_append.mp hp with h | h
        · exact hps p (List.mem_append.mpr (Or.inl h))
        · cases o2 with
          | none => simp at h
          | some q =>
            simp only [Option.map_some'] at h
            rw [List.mem_singleton.mp h]
            exact hps q (List.mem_append.mpr (Or.inr (List.mem_singleton.mpr rfl)))
    · simp only [h2, Bool.false_eq_true, if_false]
      exact hps

theorem foldl_projStep_titles :
    ∀ (ls : List S), (∀ l ∈ ls, "### ".data.isPrefixOf l = true → pyStrip (l.drop 4) ≠ ([] : S)) →
      ∀ (ps : ProjSt), (∀ p ∈ projFinish ps, p.1 ≠ ([] : S)) →
        ∀ p ∈ projFinish (ls.foldl projStep ps), p.1 ≠ ([] : S) := by
  intro ls
  induction ls with
  | nil => intro _ ps hps; exact hps
  | cons l t ih =>
    intro hl ps hps
    rw [List.foldl_cons]
    exact ih (fun x hx => hl x (List.mem_cons_of_mem l hx))
      (projStep ps l) (projStep_titles (hl l (List.mem_cons_self l t)) hps)

/-- C5 amended: blocks arise only from sub-heading lines, and the title is
the trimmed heading text — which may be empty when the text after the
`### ` marker is blank (see the counterexample).  Whenever every
sub-heading line of the section carries non-blank text, every returned
block has a non-empty title. -/
theorem C5_nonempty_titles (c : S)
    (hs : ∀ l ∈ splitOn '\n' c, "### ".data.isPrefixOf l = true → pyStrip (l.drop 4) ≠ ([] : S))
    (bs : List ExportBlock) (hbs : parse_article_blocks c = some bs)
    (b : ExportBlock) (hb : b ∈ bs) : b.title ≠ ([] : S) := by
  have h := parse_article_blocks_tt c
  rw [hbs] at h
  have h2 : bs.map expTT = projFinish ((splitOn '\n' c).foldl projStep ([], none)) := by
    simpa using h
  have hmem : expTT b ∈ bs.map expTT := List.mem_map_of_mem expTT hb
  rw [h2] at hmem
  exact foldl_projStep_titles (splitOn '\n' c) hs ([], none)
    (by intro p hp; simp [projFinish] at hp) (expTT b) hmem

/-- C5 witness: on the section `"### T"` the theorem applies and the
single returned block has the non-empty title `"T"`. -/
theorem C5_nonempty_titles_witness :
    ExportBlock.title ⟨"T".data, [], [], [], [], none⟩ ≠ ([] : S) :=
  C5_nonempty_titles "### T".data (by decide)
    [⟨"T".data, [], [], [], [], none⟩] (by decide)
    ⟨"T".data, [], [], [], [], none⟩ (by decide)

/-! ### C6: the double-bracket branch overwrites the slug -/

/-- C6 amended: a line reaching the double-bracket branch sets the open
block's slug to the bracketed value unconditionally — it overwrites any
earlier value, including one set by a hidden `<!-- SLUG: ... -->`
comment; when both forms are present the later line wins. -/
theorem C6_bracket_assignment_unconditional (st : ExpSt) (b : ExportBlock) (line : S)
    (hcur : st.cur = some b)
    (h1 : "### ".data.isPrefixOf line = false)
    (h2 : tagGuard line = false)
    (h3 : urlGuard line = false)
    (h4 : "<!-- SLUG:".data.isPrefixOf line = false)
    (h5 : "![".data.isPrefixOf line = false)
    (h6 : pyContains "[[".data line = true)
    (h7 : pyContains "]]".data line = true) :
    expStep st line = some { st with cur := some { b with slug := bracketSlug line } } := by
  unfold expStep
  simp [h1, h2, h3, h4, h5, h6, h7, hcur]

/-- C6 witness: applying the theorem with an open block whose slug is
already `"a"` and the line `"[[b]]"`: the slug is replaced. -/
theorem C6_bracket_assignment_unconditional_witness :
    expStep ⟨[], some ⟨"T".data, "a".data, [], [], [], none⟩, []⟩ "[[b]]".data =
      some ⟨[], some ⟨"T".data, bracketSlug "[[b]]".data, [], [], [], none⟩, []⟩ :=
  C6_bracket_assignment_unconditional ⟨[], some ⟨"T".data, "a".data, [], [], [], none⟩, []⟩
    ⟨"T".data, "a".data, [], [], [], none⟩ "[[b]]".data rfl (by decide) (by decide)
    (by decide) (by decide) (by decide) (by decide) (by decide)

/-! ### C10: everything before the first sub-heading is discarded -/

theorem expStep_none_cur {line : S} (h1 : "### ".data.isPrefixOf line = false) :
    (∀ c : List S, expStep ⟨[], none, c⟩ line = none) ∨
    (∀ c : List S, expStep ⟨[], none, c⟩ line = some ⟨[], none, c⟩) ∨
    (∀ c : List S, expStep ⟨[], none, c⟩ line = some ⟨[], none, c ++ [line]⟩) := by
  by_cases h2 : tagGuard line = true
  · cases hIdx : pyIndex (splitOnce ':' line) 1 with
    | none => exact Or.inl (fun c => by unfold expStep; simp [h1, h2, hIdx])
    | some rest => exact Or.inr (Or.inl (fun c => by unfold expStep; simp [h1, h2, hIdx]))
  · by_cases h3 : urlGuard line = true
    · cases hIdx : pyIndex (splitOnce ':' line) 1 with
      | none => exact Or.inl (fun c => by unfold expStep; simp [h1, h2, h3, hIdx])
      | some rest =>
        refine Or.inr (Or.inl (fun c => ?_))
        unfold expStep
        simp only [h1, h2, h3, Bool.false_eq_true, if_false, if_true, hIdx]
        repeat' split
        all_goals simp
    · refine ?_
      by_cases h4 : "<!-- SLUG:".data.isPrefixOf line = true
      · exact Or.inr (Or.inl (fun c => by unfold expStep; simp [h1, h2, h3, h4]))
      · by_cases h5 : "![".data.isPrefixOf line = true
        · refine Or.inr (Or.inl (fun c => ?_))
          unfold expStep
          simp only [h1, h2, h3, h4, h5, Bool.false_eq_true, if_false, if_true]
          repeat' split
          all_goals simp
        · by_cases h6 : (pyContains "(See:".data line || pyContains "[[".data line) = true
          · refine Or.inr (Or.inl (fun c => ?_))
            unfold expStep
            simp only [h1, h2, h3, h4, h5, h6, Bool.false_eq_true, if_false, if_true]
            repeat' split
            all_goals simp
          · exact Or.inr (Or.inr (fun c => by unfold expStep; simp [h1, h2, h3, h4, h5, h6]))

theorem emStep_none_cur {line : S} (h1 : "### ".data.isPrefixOf line = false) :
    (∀ c : List S, emStep ⟨[], none, c⟩ line = none) ∨
    (∀ c : List S, emStep ⟨[], none, c⟩ line = some ⟨[], none, c⟩) ∨
    (∀ c : List S, emStep ⟨[], none, c⟩ line = some ⟨[], none, c ++ [line]⟩) := by
  by_cases h2 : tagGuard line = true
  · cases hIdx : pyIndex (splitOnce ':' line) 1 with
    | none => exact Or.inl (fun c => by unfold emStep; simp [h1, h2, hIdx])
    | some rest => exact Or.inr (Or.inl (fun c => by unfold emStep; simp [h1, h2, hIdx]))
  · by_cases h3 : urlGuard line = true
    · cases hIdx : pyIndex (splitOnce ':' line) 1 with
      | none => exact Or.inl (fun c => by unfold emStep; simp [h1, h2, h3, hIdx])
      | some rest =>
        refine Or.inr (Or.inl (fun c => ?_))
        unfold emStep
        simp only [h1, h2, h3, Bool.false_eq_true, if_false, if_true, hIdx]
        repeat' split
        all_goals simp
    · by_cases h4 : "<!-- SLUG:".data.isPrefixOf line = true
      · exact Or.inr (Or.inl (fun c => by unfold emStep; simp [h1, h2, h3, h4]))
      · exact Or.inr (Or.inr (fun c => by unfold emStep; simp [h1, h2, h3, h4]))

theorem foldlM_expStep_content_irrelevant (ls : List S) :
    ∀ c c' : List S,
      (ls.foldlM expStep ⟨[], none, c⟩).map closeExportCur =
        (ls.foldlM expStep ⟨[], none, c'⟩).map closeExportCur := by
  induction ls with
  | nil => intro c c'; rfl
  | cons l t ih =>
    intro c c'
    rw [List.foldlM_cons, List.foldlM_cons]
    by_cases h1 : "### ".data.isPrefixOf l = true
    · have e : ∀ x : List S, expStep ⟨[], none, x⟩ l = some ⟨[], some (newExportBlock l), []⟩ := by
        intro x; unfold expStep; simp [h1, closeExportCur]
      rw [e c, e c']
    · have h1' : "### ".data.isPrefixOf l = false := Bool.eq_false_iff.mpr h1
      rcases expStep_none_cur h1' with hN | hU | hA
      · rw [hN c, hN c']
      · rw [hU c, hU c']
        exact ih c c'
      · rw [hA c, hA c']
        exact ih (c ++ [l]) (c' ++ [l])

theorem foldlM_emStep_content_irrelevant (ls : List S) :
    ∀ c c' : List S,
      (ls.foldlM emStep ⟨[], none, c⟩).map closeEmailCur =
        (ls.foldlM emStep ⟨[], none, c'⟩).map closeEmailCur := by
  induction ls with
  | nil => intro c c'; rfl
  | cons l t ih =>
    intro c c'
    rw [List.foldlM_cons, List.foldlM_cons]
    by_cases h1 : "### ".data.isPrefixOf l = true
    · have e : ∀ x : List S, emStep ⟨[], none, x⟩ l = some ⟨[], some (newEmailBlock l), []⟩ := by
        intro x; unfold emStep; simp [h1, closeEmailCur]
      rw [e c, e c']
    · have h1' : "### ".data.isPrefixOf l = false := Bool.eq_false_iff.mpr h1
      rcases emStep_none_cur h1' with hN | hU | hA
      · rw [hN c, hN c']
      · rw [hU c, hU c']
        exact ih c c'
      · rw [hA c, hA c']
        exact ih (c ++ [l]) (c' ++ [l])

theorem parse_lines_pre :
    ∀ (pre : List S), (∀ l ∈ pre, "### ".data.isPrefixOf l = false) →
      ∀ post, parse_article_blocks_lines (pre ++ post) = parse_article_blocks_lines post := by
  intro pre
  induction pre with
  | nil => intro _ post; rfl
  | cons l p ih =>
    intro hpre post
    have hl := hpre l (List.mem_cons_self l p)
    have hrest : ∀ x ∈ p, "### ".data.isPrefixOf x = false :=
      fun x hx => hpre x (List.mem_cons_of_mem l hx)
    show (((l :: (p ++ post)).foldlM expStep ⟨[], none, []⟩).map closeExportCur) = _
    rw [List.foldlM_cons]
    rcases expStep_none_cur hl with hN | hU | hA
    · exfalso
      have hS := expStep_isSome ⟨[], none, []⟩ l
      rw [hN []] at hS
      exact absurd hS (by simp)
    · rw [hU []]
      exact ih hrest post
    · rw [hA []]
      exact (foldlM_expStep_content_irrelevant (p ++ post) ([] ++ [l]) []).trans (ih hrest post)

theorem email_parse_lines_pre :
    ∀ (pre : List S), (∀ l ∈ pre, "### ".data.isPrefixOf l = false) →
      ∀ post, email_parse_article_blocks_lines (pre ++ post) = email_parse_article_blocks_lines post := by
  intro pre
  induction pre with
  | nil => intro _ post; rfl
  | cons l p ih =>
    intro hpre post
    have hl := hpre l (List.mem_cons_self l p)
    have hrest : ∀ x ∈ p, "### ".data.isPrefixOf x = false :=
      fun x hx => hpre x (List.mem_cons_of_mem l hx)
    show (((l :: (p ++ post)).foldlM emStep ⟨[], none, []⟩).map closeEmailCur) = _
    rw [List.foldlM_cons]
    rcases emStep_none_cur hl with hN | hU | hA
    · exfalso
      have hS := emStep_isSome ⟨[], none, []⟩ l
      rw [hN []] at hS
      exact absurd hS (by simp)
    · rw [hU []]
      exact ih hrest post
    · rw [hA []]
      exact (foldlM_emStep_content_irrelevant (p ++ post) ([] ++ [l]) []).trans (ih hrest post)

/-- C10: in both the export command's and the email publisher's article
block parsers, every line before the first sub-heading line contributes
nothing: prose and annotation lines alike are discarded, so parsing the
section with those lines removed gives the same result. -/
theorem C10_lines_before_first_subheading (pre post : List S)
    (hpre : ∀ l ∈ pre, "### ".data.isPrefixOf l = false) :
    parse_article_blocks_lines (pre ++ post) = parse_article_blocks_lines post ∧
    email_parse_article_blocks_lines (pre ++ post) = email_parse_article_blocks_lines post :=
  ⟨parse_lines_pre pre hpre post, email_parse_lines_pre pre hpre post⟩

/-- C10 witness: a tag annotation, a slug comment and a prose line before
the first sub-heading are all ignored by both parsers. -/
theorem C10_lines_before_first_subheading_witness :
    parse_article_blocks_lines
        (["**Tags**: x".data, "<!-- SLUG: s -->".data, "hello".data] ++ ["### T".data]) =
      parse_article_blocks_lines ["### T".data] ∧
    email_parse_article_blocks_lines
        (["**Tags**: x".data, "<!-- SLUG: s -->".data, "hello".data] ++ ["### T".data]) =
      email_parse_article_blocks_lines ["### T".data] :=
  C10_lines_before_first_subheading
    ["**Tags**: x".data, "<!-- SLUG: s -->".data, "hello".data] ["### T".data] (by decide)

/-! ### C3: section-name resolution differs between the three copies -/

/-- C3 amended: only the PDF publisher's normalizer resolves heading
names through a table holding both locales (looked up on the lower-cased
name); the export command and the email publisher look the raw name up
in a Chinese-only table, so an English canonical name falls through to
the derived lowercase-underscore key.  In all three, any name outside
the table is stored under the derived key. -/
theorem C3_section_name_resolution :
    (pdf_normalize_section_name "核心趋势".data = "trends".data ∧
     pdf_normalize_section_name "Core Trends".data = "trends".data ∧
     pdf_normalize_section_name "主编导语".data = "introduction".data ∧
     pdf_normalize_section_name "Editor\x27s Introduction".data = "introduction".data ∧
     pdf_normalize_section_name "深度文章".data = "article_blocks".data ∧
     pdf_normalize_section_name "In-Depth Articles".data = "article_blocks".data ∧
     pdf_normalize_section_name "快讯速览".data = "news_briefs".data ∧
     pdf_normalize_section_name "News Briefs".data = "news_briefs".data) ∧
    (exp_section_key "主编导语".data = "introduction".data ∧
     exp_section_key "核心趋势".data = "trends".data ∧
     exp_section_key "深度文章".data = "article_blocks".data ∧
     exp_section_key "快讯速览".data = "news_briefs".data) ∧
    (∀ name : S, email_section_key name = exp_section_key name) ∧
    (∀ name : S, name ≠ "主编导语".data → name ≠ "核心趋势".data →
      name ≠ "深度文章".data → name ≠ "快讯速览".data →
      exp_section_key name = pyReplace " ".data "_".data (pyLower name)) ∧
    (∀ name : S, pyLower name ≠ "主编导语".data →
      pyLower name ≠ "editor\x27s introduction".data →
      pyLower name ≠ "核心趋势".data → pyLower name ≠ "core trends".data →
      pyLower name ≠ "深度文章".data → pyLower name ≠ "in-depth articles".data →
      pyLower name ≠ "快讯速览".data → pyLower name ≠ "news briefs".data →
      pdf_normalize_section_name name = pyReplace " ".data "_".data (pyLower name)) := by
  refine ⟨by decide, by decide, fun name => rfl, ?_, ?_⟩
  · intro name h1 h2 h3 h4
    unfold exp_section_key
    simp [h1, h2, h3, h4]
  · intro name h1 h2 h3 h4 h5 h6 h7 h8
    unfold pdf_normalize_section_name
    simp [h1, h2, h3, h4, h5, h6, h7, h8]

/-- C3 witness: the theorem applied at the unknown name "Foo Bar" and
at "Core Trends", discharging the table-absence hypotheses. -/
theorem C3_section_name_resolution_witness :
    exp_section_key "Foo Bar".data = pyReplace " ".data "_".data (pyLower "Foo Bar".data) ∧
    pdf_normalize_section_name "Foo Bar".data =
      pyReplace " ".data "_".data (pyLower "Foo Bar".data) ∧
    email_section_key "Core Trends".data = exp_section_key "Core Trends".data :=
  ⟨C3_section_name_resolution.2.2.2.1 "Foo Bar".data (by decide) (by decide) (by decide)
      (by decide),
   C3_section_name_resolution.2.2.2.2 "Foo Bar".data (by decide) (by decide) (by decide)
      (by decide) (by decide) (by decide) (by decide) (by decide),
   C3_section_name_resolution.2.2.1 "Core Trends".data⟩

/-! ### C7: per-line characterization of the news-brief parser -/

theorem findSub?_some {sub s : S} : ∀ {j : Nat}, findSub? sub s = some j →
    sub.isPrefixOf (s.drop j) = true := by
  induction s with
  | nil =>
    intro j h
    unfold findSub? at h
    split at h
    · cases h
      simpa [List.isPrefixOf_iff_prefix] using (by simpa [List.isEmpty_iff] using ‹sub.isEmpty = true›)
    · cases h
  | cons c t ih =>
    intro j h
    unfold findSub? at h
    split at h
    · cases h
      assumption
    · cases hft : findSub? sub t with
      | none => rw [hft] at h; cases h
      | some k =>
        rw [hft] at h
        simp only [Option.map_some'] at h
        cases h
        simpa using ih hft

theorem findSub?_none {sub s : S} (h : findSub? sub s = none) :
    ∀ j : Nat, sub.isPrefixOf (s.drop j) = false := by
  induction s with
  | nil =>
    intro j
    unfold findSub? at h
    split at h
    · cases h
    · rw [List.drop_nil]
      cases sub with
      | nil => simp [List.isEmpty] at *
      | cons a as => rfl
  | cons c t ih =>
    intro j
    unfold findSub? at h
    split at h
    · cases h
    · cases hft : findSub? sub t with
      | some k => rw [hft] at h; cases h
      | none =>
        cases j with
        | zero =>
          rw [List.drop_zero]
          exact Bool.eq_false_iff.mpr ‹¬sub.isPrefixOf (c :: t) = true›
        | succ j' => exact ih hft j'

theorem pyContains_iff {sub s : S} :
    pyContains sub s = true ↔ ∃ j : Nat, sub.isPrefixOf (s.drop j) = true := by
  constructor
  · intro h
    cases hf : findSub? sub s with
    | none => rw [pyContains, hf] at h; cases h
    | some j => exact ⟨j, findSub?_some hf⟩
  · rintro ⟨j, hj⟩
    cases hf : findSub? sub s with
    | none => rw [findSub?_none hf j] at hj; cases hj
    | some k => rw [pyContains, hf]; rfl

theorem briefOfLine_isSome_iff (l : S) :
    (briefOfLine l).isSome = true ↔
      ("- ".data.isPrefixOf (pyStrip l) = true ∧
       ∃ k : Nat, 2 ≤ k ∧ "**".data.isPrefixOf (((pyStrip l).drop 2).drop k) = true) := by
  unfold briefOfLine
  by_cases hb : "- ".data.isPrefixOf (pyStrip l) = true
  · simp only [hb, if_true, true_and]
    constructor
    · intro h
      by_cases hc : pyContains "**".data ((pyStrip l).drop 2) = true
      · rw [if_pos hc] at h
        split at h
        · rename_i hk
          unfold pyFindNat at hk
          cases hf : findSub? "**".data (((pyStrip l).drop 2).drop 2) with
          | none => rw [hf] at hk; cases hk
          | some j =>
            refine ⟨j + 2, by omega, ?_⟩
            have := findSub?_some hf
            rw [List.drop_drop] at this
            rwa [Nat.add_comm] at this
        · cases h
      · rw [if_neg hc] at h
        cases h
    · rintro ⟨k, hk2, hocc⟩
      have hocc' : "**".data.isPrefixOf ((((pyStrip l).drop 2).drop 2).drop (k - 2)) = true := by
        rw [List.drop_drop]
        have h22 : 2 + (k - 2) = k := by omega
        rwa [h22]
      have hc : pyContains "**".data ((pyStrip l).drop 2) = true :=
        pyContains_iff.mpr ⟨k, hocc⟩
      rw [if_pos hc]
      cases hf : findSub? "**".data (((pyStrip l).drop 2).drop 2) with
      | none => rw [findSub?_none hf (k - 2)] at hocc'; cases hocc'
      | some j =>
        have hpos : (0 : Int) < pyFindNat "**".data ((pyStrip l).drop 2) 2 := by
          unfold pyFindNat
          rw [hf]
          show (0 : Int) < ((2 + j : Nat) : Int)
          omega
        rw [if_pos hpos]
        rfl
  · simp [hb]

theorem foldl_briefs (ls : List S) :
    ∀ acc : List Brief,
      ls.foldl (fun briefs line =>
        match briefOfLine line with
        | some b => briefs ++ [b]
        | none => briefs) acc = acc ++ ls.filterMap briefOfLine := by
  induction ls with
  | nil => intro acc; simp
  | cons l t ih =>
    intro acc
    rw [List.foldl_cons, List.filterMap_cons]
    cases hb : briefOfLine l with
    | none => simp only [hb]; exact ih acc
    | some b => simp only [hb]; rw [ih (acc ++ [b])]; simp

/-- C7 amended: the news-brief parser is line-local, emitting at most one
brief per line; a brief is emitted exactly when the stripped line starts
with "- " and its content (after the bullet) contains "**" at some index
at least 2 — so bullet content that does not begin with "**" can still
emit a brief, with the title sliced blindly from index 2 (see the
counterexample); the well-formed example parses as the claim states. -/
theorem C7_news_brief_per_line :
    (∀ c : S, parse_news_briefs c = (splitOn '\n' c).filterMap briefOfLine) ∧
    (∀ l : S, (briefOfLine l).isSome = true ↔
      ("- ".data.isPrefixOf (pyStrip l) = true ∧
       ∃ k : Nat, 2 ≤ k ∧ "**".data.isPrefixOf (((pyStrip l).drop 2).drop k) = true)) ∧
    parse_news_briefs "- **GitHub Update**: shipped a new feature".data =
      [⟨"GitHub Update".data, "shipped a new feature".data, []⟩] := by
  refine ⟨fun c => ?_, briefOfLine_isSome_iff, by decide⟩
  unfold parse_news_briefs
  simpa using foldl_briefs (splitOn '\n' c) []

/-- C7 witness: applying the per-line characterization to the well-formed
example line, discharging the existence condition at index 15. -/
theorem C7_news_brief_per_line_witness :
    (briefOfLine "- **GitHub Update**: shipped a new feature".data).isSome = true :=
  (C7_news_brief_per_line.2.1 "- **GitHub Update**: shipped a new feature".data).mpr
    ⟨by decide, 15, by decide, by decide⟩

/-! ### Reference resolver: the enrichment loop of `generate`
(src/autopaper/commands/generate.py lines 84-98) -/

/-- A dynamic Python value as it appears in a composed article block. -/
inductive PyVal where
  | vnone : PyVal
  | vstr : S → PyVal
  | vlist : List S → PyVal
  deriving DecidableEq

/-- Python truthiness of the dynamic values involved. -/
def truthy : PyVal → Bool
  | .vnone => false
  | .vstr s => !s.isEmpty
  | .vlist l => !l.isEmpty

/-- One article-block dictionary from the composed issue data; a `none`
field models an absent key. -/
structure GenBlock where
  slug : Option PyVal
  url : Option PyVal
  cover_image : Option PyVal
  tags : Option PyVal
  deriving DecidableEq

/-- Python `block.get("slug", "")`. -/
def slugKey (b : GenBlock) : PyVal := b.slug.getD (.vstr [])

/-- The enrichment loop body of `generate`.  `slugToUrl`, `slugToCover`
and `slugToTags` model the dictionaries built from the article store
(`dict.get` with default "" , no default, and default [] respectively);
`jsonLoads` models the external `json.loads`, `none` standing for a
`JSONDecodeError` which the code downgrades to a one-element list. -/
def enrich_block (slugToUrl slugToCover slugToTags : PyVal → Option PyVal)
    (jsonLoads : S → Option PyVal) (b : GenBlock) : GenBlock :=
  let b1 := if (match b.url with | none => true | some v => !truthy v) then
      { b with url := some ((slugToUrl (slugKey b)).getD (.vstr [])) }
    else b
  let b2 := if (match b1.cover_image with | none => true | some v => !truthy v) then
      { b1 with cover_image := some ((slugToCover (slugKey b1)).getD .vnone) }
    else b1
  let b3 := match b2.tags with
    | some (.vstr s) =>
      { b2 with tags := some (match jsonLoads s with | some v => v | none => .vlist [s]) }
    | _ => b2
  if !truthy (b3.tags.getD .vnone) then
    { b3 with tags := some ((slugToTags (slugKey b3)).getD (.vlist [])) }
  else b3

/-- The whole enrichment pass over `issue_data["article_blocks"]`. -/
def enrich_blocks (slugToUrl slugToCover slugToTags : PyVal → Option PyVal)
    (jsonLoads : S → Option PyVal) (bs : List GenBlock) : List GenBlock :=
  bs.map (enrich_block slugToUrl slugToCover slugToTags jsonLoads)

/-- C9: enrichment never clobbers composer-set fields: a truthy `url` is
kept unchanged (even when the lookup holds another value), a truthy
`cover_image` is kept, a non-empty tag list is kept, a string-encoded
tags value is decoded (or wrapped as a one-element list) rather than
replaced by the lookup, and an absent or falsy `url` is filled from the
url lookup for the block's slug, with "" when the slug has no entry. -/
theorem C9_enrichment_non_clobber
    (su sc st : PyVal → Option PyVal) (jl : S → Option PyVal) (b : GenBlock) :
    (∀ v, b.url = some v → truthy v = true →
      (enrich_block su sc st jl b).url = some v) ∧
    (∀ v, b.cover_image = some v → truthy v = true →
      (enrich_block su sc st jl b).cover_image = some v) ∧
    (∀ l : List S, b.tags = some (.vlist l) → l ≠ [] →
      (enrich_block su sc st jl b).tags = some (.vlist l)) ∧
    (∀ s v, b.tags = some (.vstr s) → jl s = some v → truthy v = true →
      (enrich_block su sc st jl b).tags = some v) ∧
    ((match b.url with | none => true | some v => !truthy v) = true →
      (enrich_block su sc st jl b).url = some ((su (slugKey b)).getD (.vstr []))) := by
  obtain ⟨bs, bu, bc, bt⟩ := b
  refine ⟨?_, ?_, ?_, ?_, ?_⟩
  · intro v hv htr
    cases hv
    unfold enrich_block
    simp only [htr, Bool.not_true, slugKey]
    repeat' split
    all_goals simp_all
  · intro v hv htr
    cases hv
    unfold enrich_block
    simp only [htr, Bool.not_true, slugKey]
    repeat' split
    all_goals simp_all
  · intro l hl hne
    cases hl
    unfold enrich_block
    have htr : truthy (.vlist l) = true := by
      simp [truthy, List.isEmpty_iff, hne]
    simp only [slugKey]
    repeat' split
    all_goals simp_all [truthy, List.isEmpty_iff]
  · intro s v hs hjl htr
    cases hs
    unfold enrich_block
    simp only [slugKey]
    repeat' split
    all_goals simp_all
  · intro hfalsy
    unfold enrich_block
    simp only [hfalsy, if_true, slugKey]
    repeat' split
    all_goals simp_all

/-- C9 witness: the spec's non-clobber example — composer url "http://a",
lookup holding "http://b" for the same slug — retains "http://a"; and a
block with falsy url gets the lookup value. -/
theorem C9_enrichment_non_clobber_witness :
    (enrich_block (fun _ => some (.vstr "http://b".data)) (fun _ => none) (fun _ => none)
        (fun _ => none)
        ⟨some (.vstr "s".data), some (.vstr "http://a".data), some (.vstr "c".data),
         some (.vlist ["t".data])⟩).url = some (.vstr "http://a".data) ∧
    (enrich_block (fun _ => some (.vstr "http://b".data)) (fun _ => none) (fun _ => none)
        (fun _ => none)
        ⟨some (.vstr "s".data), some (.vstr []), some (.vstr "c".data),
         some (.vlist ["t".data])⟩).url = some (.vstr "http://b".data) := by
  constructor
  · exact (C9_enrichment_non_clobber (fun _ => some (.vstr "http://b".data)) (fun _ => none)
      (fun _ => none) (fun _ => none)
      ⟨some (.vstr "s".data), some (.vstr "http://a".data), some (.vstr "c".data),
       some (.vlist ["t".data])⟩).1 (.vstr "http://a".data) rfl (by decide)
  · exact (C9_enrichment_non_clobber (fun _ => some (.vstr "http://b".data)) (fun _ => none)
      (fun _ => none) (fun _ => none)
      ⟨some (.vstr "s".data), some (.vstr []), some (.vstr "c".data),
       some (.vlist ["t".data])⟩).2.2.2.2 (by decide)

/-! ### Inline formatter: `_markdown_to_html` (export.py lines 197-329).
Pass 1 is the five `re.sub` calls, implemented as left-to-right scanners
with the exact matching semantics of the Python patterns (non-greedy
groups, `.` not matching a newline, negated classes matching newlines,
lookarounds reading the original text).  Fuel bounds each scan by the
input length; every step consumes at least one character, so the fuel
`length + 1` is never exhausted. -/

/-- The backquote character. -/
def btick : Char := Char.ofNat 96

/-- First index of character `d` in `s`. -/
def firstIdx (d : Char) : S → Option Nat
  | [] => none
  | c :: t => if c = d then some 0 else (firstIdx d t).map (· + 1)

/-- Earliest occurrence of `cl` reachable without crossing a newline
(a non-greedy `(.*?)` group cannot contain a newline). -/
def findSubNoNl (cl : S) : S → Option Nat
  | [] => if cl.isEmpty then some 0 else none
  | c :: t =>
    if cl.isPrefixOf (c :: t) then some 0
    else if c = '\n' then none
    else (findSubNoNl cl t).map (· + 1)

/-- Start-of-line match of `###\s+`: marker then at least one whitespace. -/
def headMatch (s : S) : Bool :=
  "###".data.isPrefixOf s &&
    (match s.drop 3 with
     | d :: _ => pySpace d
     | [] => false)

/-- Pattern `re.sub(r'^###\s+(.*?)$', r'<h4>\1</h4>', html, flags=re.MULTILINE)`:
at a line start, `###` then a greedy whitespace run (which may cross
newlines) then a lazy group stopping at the next end of line. -/
def sub1Go : Nat → Bool → S → S
  | 0, _, s => s
  | fuel + 1, atStart, s =>
    match s with
    | [] => []
    | c :: rest =>
      if atStart && headMatch (c :: rest) then
        let body := ((c :: rest).drop 3).dropWhile pySpace
        let group := body.takeWhile (fun d => !(d = '\n' : Bool))
        "<h4>".data ++ group ++ "</h4>".data ++ sub1Go fuel false (body.drop group.length)
      else
        c :: sub1Go fuel (c = '\n') rest

/-- Pattern `re.sub(op ++ (.*?) ++ cl, pre\1post, s)` for two-character bold
delimiters (`\*\*(.*?)\*\*` and `__(.*?)__`). -/
def subPairGo (op cl pre post : S) : Nat → S → S
  | 0, s => s
  | fuel + 1, s =>
    match s with
    | [] => []
    | c :: rest =>
      if op.isPrefixOf (c :: rest) then
        match findSubNoNl cl ((c :: rest).drop op.length) with
        | some j =>
          pre ++ ((c :: rest).drop op.length).take j ++ post ++
            subPairGo op cl pre post fuel (((c :: rest).drop op.length).drop (j + cl.length))
        | none => c :: subPairGo op cl pre post fuel rest
      else c :: subPairGo op cl pre post fuel rest

/-- Pattern `re.sub(r'(?<!d)d([^d]+)d(?!d)', pre\1post, s)` for the italic
markers; `prev` is the original character before the scan position. -/
def subItalGo (d : Char) (pre post : S) : Nat → Option Char → S → S
  | 0, _, s => s
  | fuel + 1, prev, s =>
    match s with
    | [] => []
    | c :: rest =>
      if (c == d) && (prev != some d) then
        match firstIdx d rest with
        | some j =>
          if decide (1 ≤ j) &&
              (match rest.drop (j + 1) with | e :: _ => e != d | [] => true) then
            pre ++ rest.take j ++ post ++ subItalGo d pre post fuel (some d) (rest.drop (j + 1))
          else c :: subItalGo d pre post fuel (some c) rest
        | none => c :: subItalGo d pre post fuel (some c) rest
      else c :: subItalGo d pre post fuel (some c) rest

/-- The inline-code substitution (backquote-delimited, non-empty group
which may contain newlines). -/
def subCodeGo : Nat → S → S
  | 0, s => s
  | fuel + 1, s =>
    match s with
    | [] => []
    | c :: rest =>
      if c = btick then
        match firstIdx btick rest with
        | some j =>
          if 1 ≤ j then
            "<code>".data ++ rest.take j ++ "</code>".data ++ subCodeGo fuel (rest.drop (j + 1))
          else c :: subCodeGo fuel rest
        | none => c :: subCodeGo fuel rest
      else c :: subCodeGo fuel rest

/-- Pattern `re.sub(r'\[([^\]]+)\]\(([^)]+)\)', r'<a href="\2">\1</a>', s)`. -/
def subLinkGo : Nat → S → S
  | 0, s => s
  | fuel + 1, s =>
    match s with
    | [] => []
    | c :: rest =>
      if c = '[' then
        match firstIdx ']' rest with
        | some j =>
          if 1 ≤ j then
            match rest.drop (j + 1) with
            | '(' :: r3 =>
              match firstIdx ')' r3 with
              | some k =>
                if 1 ≤ k then
                  "<a href=\"".data ++ r3.take k ++ "\">".data ++ rest.take j ++
                    "</a>".data ++ subLinkGo fuel (r3.drop (k + 1))
                else c :: subLinkGo fuel rest
              | none => c :: subLinkGo fuel rest
            | _ => c :: subLinkGo fuel rest
          else c :: subLinkGo fuel rest
        | none => c :: subLinkGo fuel rest
      else c :: subLinkGo fuel rest

/-- Pass 1: the five substitutions in source order. -/
def applyInlineSubs (s : S) : S :=
  let h1 := sub1Go (s.length + 1) true s
  let h2 := subPairGo "**".data "**".data "<strong>".data "</strong>".data (h1.length + 1) h1
  let h3 := subPairGo "__".data "__".data "<strong>".data "</strong>".data (h2.length + 1) h2
  let h4 := subItalGo '*' "<em>".data "</em>".data (h3.length + 1) none h3
  let h5 := subItalGo '_' "<em>".data "</em>".data (h4.length + 1) none h4
  let h6 := subCodeGo (h5.length + 1) h5
  subLinkGo (h6.length + 1) h6

/-- Sentence-boundary punctuation of the long-paragraph rule. -/
def puncts : S := "。！？；，".data

/-- Pattern `re.split(r'([。！？；，])', s)`: split keeping the separators. -/
def splitKeep : S → List S
  | [] => [[]]
  | c :: t =>
    if puncts.contains c then [] :: [c] :: splitKeep t
    else
      match splitKeep t with
      | [] => [[c]]
      | h :: r => (c :: h) :: r

/-- The `para_with_breaks` loop (export.py lines 246-251, duplicated
verbatim at 315-320): keep each non-empty piece, and append a line break
after a piece ending in a boundary character unless the piece is the
last list element. -/
def breakPieces (n : Nat) : Nat → List S → List S
  | _, [] => []
  | i, sent :: rest =>
    (if sent.isEmpty then []
     else
       sent :: (if decide (i < n - 1) &&
           (match sent.getLast? with
            | some c => puncts.contains c
            | none => false) then ["<br/>".data] else [])) ++
      breakPieces n (i + 1) rest

/-- Flush of the paragraph buffer at a blank line or at end of input,
with the long-paragraph split. -/
def flushLongP (para : List S) : S :=
  let t := joinSp para
  if 100 < t.length then
    "<p>".data ++ (breakPieces (splitKeep t).length 0 (splitKeep t)).flatten ++ "</p>".data
  else
    "<p>".data ++ t ++ "</p>".data

/-- Pattern `re.match(r'^(\d+)\.\s+\*\*(.*?)\*\*:\s*(.*)', line)`; the guard
pattern `^(\d+)\.\s+\*\*.*?\*\*:` matches exactly when this does, since
the extra suffix `\s*(.*)` matches anything. -/
def matchTrend (line : S) : Option (S × S × S) :=
  let ds := line.takeWhile Char.isDigit
  if ds.isEmpty then none
  else
    match line.drop ds.length with
    | '.' :: r1 =>
      let sp := r1.takeWhile pySpace
      if sp.isEmpty then none
      else
        let r2 := r1.drop sp.length
        if "**".data.isPrefixOf r2 then
          match findSub? "**:".data (r2.drop 2) with
          | some j =>
            some (ds, (r2.drop 2).take j, ((r2.drop 2).drop (j + 3)).dropWhile pySpace)
          | none => none
        else none
    | _ => none

/-- Pattern `re.match(r'^\d+\.\s+', line)`. -/
def matchNum (line : S) : Bool :=
  let ds := line.takeWhile Char.isDigit
  !ds.isEmpty &&
    (match line.drop ds.length with
     | '.' :: r1 => !(r1.takeWhile pySpace).isEmpty
     | _ => false)

/-- Pass-2 segmentation state. -/
structure MdSt where
  result : List S
  para : List S
  in_numbered_list : Bool
  in_bullet_list : Bool
  deriving DecidableEq

/-- One iteration of the pass-2 line loop of `_markdown_to_html`. -/
def mdStep (st : MdSt) (line0 : S) : MdSt :=
  let line := pyStrip line0
  if line.isEmpty then
    let st1 := if st.para.isEmpty then st
      else { st with result := st.result ++ [flushLongP st.para], para := [] }
    let st2 := if st1.in_bullet_list then
        { st1 with result := st1.result ++ ["</ul>".data], in_bullet_list := false }
      else st1
    if st2.in_numbered_list then { st2 with in_numbered_list := false } else st2
  else if "<h4>".data.isPrefixOf line then
    let st1 := if st.para.isEmpty then st
      else { st with result := st.result ++ ["<p>".data ++ joinSp st.para ++ "</p>".data], para := [] }
    { st1 with result := st1.result ++ [line] }
  else
    match matchTrend line with
    | some nt =>
      let st1 := if st.para.isEmpty then st
        else { st with result := st.result ++ ["<p>".data ++ joinSp st.para ++ "</p>".data], para := [] }
      { st1 with result := st1.result ++
          ["<div class=\"trend-item\">".data,
           "<span class=\"trend-number\">".data ++ nt.1 ++ ".</span>".data,
           "<strong class=\"trend-title\">".data ++ nt.2.1 ++ ":</strong> ".data ++ nt.2.2,
           "</div>".data] }
    | none =>
      if matchNum line then
        let st1 := if st.in_bullet_list then
            { st with result := st.result ++ ["</ul>".data], in_bullet_list := false }
          else st
        let content := (line.drop ((line.takeWhile Char.isDigit).length + 1)).dropWhile pySpace
        let numPart := match splitOn '.' line with | h :: _ => h | [] => []
        { st1 with result := st1.result ++
            ["<p class=\"numbered-paragraph\"><strong>".data ++ numPart ++ ".</strong> ".data ++
             content ++ "</p>".data] }
      else if (match line with | c :: _ => c = '-' || c = '*' || c = '+' | [] => false) then
        let st1 := if st.in_bullet_list then st
          else { st with result := st.result ++ ["<ul>".data], in_bullet_list := true }
        { st1 with result := st1.result ++
            ["<li>".data ++ pyStrip (line.drop 1) ++ "</li>".data] }
      else
        { st with para := st.para ++ [line] }

/-- After the loop: flush the last paragraph (long rule) and close an
open bullet list. -/
def mdFinish (st : MdSt) : List S :=
  let st1 := if st.para.isEmpty then st
    else { st with result := st.result ++ [flushLongP st.para], para := [] }
  if st1.in_bullet_list then st1.result ++ ["</ul>".data] else st1.result

/-- Function `_markdown_to_html` of src/autopaper/commands/export.py. -/
def markdown_to_html (s : S) : S :=
  if s.isEmpty then []
  else joinNl (mdFinish ((splitOn '\n' (applyInlineSubs s)).foldl mdStep ⟨[], [], false, false⟩))

/-! ### C8: the long-paragraph rule -/

/-- Break-after-every-boundary form: each boundary character is followed
by an explicit line break. -/
def breakAll (t : S) : S :=
  t.foldr (fun c acc => if puncts.contains c then c :: ("<br/>".data ++ acc) else c :: acc) []

theorem breakPieces_cons (n i : Nat) (sent : S) (rest : List S) :
    breakPieces n i (sent :: rest) =
      (if sent.isEmpty then []
       else sent :: (if decide (i < n - 1) &&
           (match sent.getLast? with
            | some c => puncts.contains c
            | none => false) then ["<br/>".data] else [])) ++
        breakPieces n (i + 1) rest := rfl

theorem breakAll_cons (c : Char) (t : S) :
    breakAll (c :: t) =
      if puncts.contains c then c :: ("<br/>".data ++ breakAll t) else c :: breakAll t := rfl

theorem splitKeep_ne_nil (t : S) : splitKeep t ≠ [] := by
  cases t with
  | nil => simp [splitKeep]
  | cons c t' =>
    unfold splitKeep
    split
    · simp
    · cases splitKeep t' <;> simp

theorem splitKeep_head_no_punct : ∀ (t : S) (h : S) (r : List S),
    splitKeep t = h :: r → ∀ c ∈ h, puncts.contains c = false := by
  intro t
  induction t with
  | nil =>
    intro h r he c hc
    unfold splitKeep at he
    cases he
    cases hc
  | cons a t' ih =>
    intro h r he c hc
    unfold splitKeep at he
    by_cases ha : puncts.contains a = true
    · rw [if_pos ha] at he
      cases he
      cases hc
    · rw [if_neg ha] at he
      cases hsk : splitKeep t' with
      | nil => exact absurd hsk (splitKeep_ne_nil t')
      | cons h' r' =>
        rw [hsk] at he
        injection he with he1 he2
        subst he1
        rcases List.mem_cons.mp hc with h1 | h2
        · rw [h1]; exact Bool.eq_false_iff.mpr ha
        · exact ih h' r' hsk c h2

theorem lastPunct_false (l : S) (hl : ∀ c ∈ l, puncts.contains c = false) :
    (match l.getLast? with
     | some c => puncts.contains c
     | none => false) = false := by
  cases hg : l.getLast? with
  | none => rfl
  | some c => exact hl c (List.mem_of_getLast?_eq_some hg)

theorem breakPieces_flatten : ∀ (t : S) (n i : Nat), i + (splitKeep t).length = n →
    (breakPieces n i (splitKeep t)).flatten = breakAll t := by
  intro t
  induction t with
  | nil =>
    intro n i hn
    simp [splitKeep, breakPieces, breakAll]
  | cons c t' ih =>
    intro n i hn
    by_cases hc : puncts.contains c = true
    · have hsk : splitKeep (c :: t') = [] :: [c] :: splitKeep t' := by
        conv_lhs => rw [splitKeep]
        rw [if_pos hc]
      rw [hsk] at hn ⊢
      have hpos : 0 < (splitKeep t').length := List.length_pos.mpr (splitKeep_ne_nil t')
      have hlt : i + 1 < n - 1 := by
        simp only [List.length_cons] at hn
        omega
      have hih := ih n (i + 1 + 1) (by simp only [List.length_cons] at hn ⊢; omega)
      have hcond : (decide (i + 1 < n - 1) &&
          (match ([c] : List Char).getLast? with
           | some x => puncts.contains x
           | none => false)) = true := by
        rw [decide_eq_true hlt]
        simpa using hc
      rw [breakPieces_cons, breakPieces_cons, hcond]
      rw [breakAll_cons, if_pos hc]
      simp only [List.isEmpty_nil, if_true, List.nil_append, List.isEmpty_cons,
        Bool.false_eq_true, if_false, List.flatten_append, List.flatten_cons,
        List.flatten_nil, List.append_nil, List.cons_append, List.nil_append]
      rw [hih]
    · have hsk0 := splitKeep_ne_nil t'
      cases hsk : splitKeep t' with
      | nil => exact absurd hsk hsk0
      | cons h r =>
        have hskc : splitKeep (c :: t') = (c :: h) :: r := by
          conv_lhs => rw [splitKeep]
          rw [if_neg hc, hsk]
        rw [hskc] at hn ⊢
        have hnp : ∀ x ∈ h, puncts.contains x = false := splitKeep_head_no_punct t' h r hsk
        have hlastc : (match (c :: h).getLast? with
            | some x => puncts.contains x
            | none => false) = false := by
          apply lastPunct_false (c :: h)
          intro x hx
          rcases List.mem_cons.mp hx with h1 | h2
          · rw [h1]; exact Bool.eq_false_iff.mpr hc
          · exact hnp x h2
        have hlasth : (match h.getLast? with
            | some x => puncts.contains x
            | none => false) = false := lastPunct_false h hnp
        have hlen : i + (splitKeep t').length = n := by
          rw [hsk]
          simp only [List.length_cons] at hn ⊢
          omega
        have hih := ih n i hlen
        rw [hsk, breakPieces_cons, hlasth] at hih
        rw [breakPieces_cons, hlastc, breakAll_cons, if_neg hc]
        simp only [Bool.and_false, Bool.false_eq_true, if_false, List.flatten_append,
          List.flatten_cons, List.flatten_nil, List.append_nil, List.cons_append,
          List.nil_append] at hih ⊢
        cases h with
        | nil =>
          simp only [List.isEmpty_nil, if_true, List.isEmpty_cons, Bool.false_eq_true,
            if_false, List.flatten_append, List.flatten_cons, List.flatten_nil,
            List.append_nil, List.nil_append, List.cons_append] at hih ⊢
          rw [hih]
        | cons x xs =>
          simp only [List.isEmpty_cons, Bool.false_eq_true, if_false, List.flatten_append,
            List.flatten_cons, List.flatten_nil, List.append_nil, List.nil_append,
            List.cons_append] at hih ⊢
          rw [← hih]

/-- Code-side flush equals the break-after-every-boundary form. -/
theorem flushLongP_eq (para : List S) :
    flushLongP para = "<p>".data ++
      (if 100 < (joinSp para).length then breakAll (joinSp para) else joinSp para) ++
      "</p>".data := by
  unfold flushLongP
  by_cases h : 100 < (joinSp para).length
  · rw [if_pos h, if_pos h,
      breakPieces_flatten (joinSp para) (splitKeep (joinSp para)).length 0 (Nat.zero_add _)]
  · rw [if_neg h, if_neg h]

/-- A flush triggered by a heading line never applies the split. -/
theorem mdStep_heading_flush (st : MdSt) (line : S)
    (h1 : (pyStrip line).isEmpty = false)
    (h2 : "<h4>".data.isPrefixOf (pyStrip line) = true)
    (h3 : st.para.isEmpty = false) :
    mdStep st line = { st with
      result := st.result ++ ["<p>".data ++ joinSp st.para ++ "</p>".data, pyStrip line],
      para := [] } := by
  unfold mdStep
  simp [h1, h2, h3]

/-- The 150-character prose line with two embedded full stops. -/
def c8Line150 : S :=
  List.replicate 60 'a' ++ "。".data ++ List.replicate 50 'b' ++ "。".data ++
    List.replicate 38 'c'

/-- C8 amended: when the paragraph buffer is flushed by a blank line or
at end of input, text over 100 characters is split at 。！？；， with a
line break inserted after every boundary — including a boundary that
ends the text; at or under 100 characters it is one block with no break.
A flush triggered by a heading line emits the paragraph with no split.
The 150-character example with two embedded full stops produces exactly
two line breaks. -/
theorem C8_long_paragraph_split :
    (∀ para : List S, flushLongP para = "<p>".data ++
      (if 100 < (joinSp para).length then breakAll (joinSp para) else joinSp para) ++
      "</p>".data) ∧
    (∀ (st : MdSt) (line : S), (pyStrip line).isEmpty = false →
      "<h4>".data.isPrefixOf (pyStrip line) = true → st.para.isEmpty = false →
      mdStep st line = { st with
        result := st.result ++ ["<p>".data ++ joinSp st.para ++ "</p>".data, pyStrip line],
        para := [] }) ∧
    markdown_to_html c8Line150 =
      "<p>".data ++ List.replicate 60 'a' ++ "。<br/>".data ++ List.replicate 50 'b' ++
        "。<br/>".data ++ List.replicate 38 'c' ++ "</p>".data :=
  ⟨flushLongP_eq, mdStep_heading_flush, by decide⟩

/-- C8 witness: the flush characterization applied to a short paragraph,
and the heading-flush rule applied at a concrete state. -/
theorem C8_long_paragraph_split_witness :
    flushLongP ["ok".data] = "<p>ok</p>".data ∧
    mdStep ⟨[], ["x".data], false, false⟩ "<h4>H</h4>".data =
      ⟨["<p>x</p>".data, "<h4>H</h4>".data], [], false, false⟩ := by
  constructor
  · rw [C8_long_paragraph_split.1 ["ok".data]]
    decide
  · rw [C8_long_paragraph_split.2.1 ⟨[], ["x".data], false, false⟩ "<h4>H</h4>".data
      (by decide) (by decide) (by decide)]
    decide

/-- The long line followed by a markdown heading. -/
def c8HeadInput : S :=
  (List.replicate 50 'a' ++ "。".data ++ List.replicate 60 'b') ++ "\n### Head".data

/-- C8 counterexample: two failures of the claim as stated.  First, a
111-character paragraph containing a full stop is flushed by a heading
line and emitted with no line break at all, so the split does not apply
"whenever a paragraph buffer is flushed".  Second, a 102-character text
ending in a full stop gets a break after that final boundary, not
"after every boundary except the very last". -/
theorem C8_flush_claim_cex :
    100 < (List.replicate 50 'a' ++ "。".data ++ List.replicate 60 'b' : S).length ∧
    pyContains "。".data (List.replicate 50 'a' ++ "。".data ++ List.replicate 60 'b') = true ∧
    markdown_to_html c8HeadInput =
      "<p>".data ++ (List.replicate 50 'a' ++ "。".data ++ List.replicate 60 'b') ++
        "</p>\n<h4>Head</h4>".data ∧
    pyContains "<br/>".data (markdown_to_html c8HeadInput) = false ∧
    markdown_to_html (List.replicate 101 'a' ++ "。".data) =
      "<p>".data ++ List.replicate 101 'a' ++ "。<br/></p>".data :=
  ⟨by decide, by decide, by decide, by decide, by decide⟩

end AutoPaper
